import Mathlib

/-!
# Verification of the hummingbot market-making strategy core

Shallow embedding, in Lean 4, of the decision-and-control core of the
repository:

* `Marroq` — the DCA executor-configuration builder
  (`controllers/market_making/marroq.py`, `MarroqController.get_executor_config`).
* `GenericExec` — the action-application phase of the executor lifecycle
  orchestrator (`generic_strategy/generic_executor.py`,
  `GenericExecutor.execute_actions`).
* `PMM` — the proposal phases of the single-level PMM script
  (`scripts/v2_pmm_single_level.py`, `create_actions_proposal` and
  `store_actions_proposal`).
* `PeakUtils` — peak clustering
  (`utils/peak_analysis_utils.py`, `hierarchical_clustering` and the
  controller's `find_and_cluster_peaks`).

Modelling conventions:
* Python `Decimal` / `float` values are modelled as exact rationals (`ℚ`).
* Fallible Python code is modelled with `Except`: an uncaught Python
  exception (`ZeroDivisionError` from `x / 0`, `ValueError` from
  `min`/`max` of an empty sequence or `list.remove` of an absent element)
  becomes an `.error` value.  The error types also carry constructors for
  the two error names the specification postulates (`DegenerateAllocation`,
  `InsufficientLevels`) so that claims comparing the raised error against
  them are statable; the source never raises them.
* External collaborators (market-data provider, scipy peak finding, the
  candle feed, the wall clock) are parameters of the embedded functions.
-/

/-- `hummingbot.core.data_type.common.TradeType` (the two sides used by the
strategy code). -/
inductive TradeType where
  | buy
  | sell
deriving DecidableEq, Repr

namespace Marroq

/-- Runtime errors of the builder.  `zeroDivisionError` models Python's
`ZeroDivisionError`/`decimal.DivisionByZero`; `valueErrorEmptySeq` models the
`ValueError` raised by `min()`/`max()` on an empty sequence.
`degenerateAllocation` and `insufficientLevels` are the error names the
specification postulates for the builder; the source code has no such
guards and never raises them — they are included only so that claims
mentioning them can be stated and compared against the errors the code
actually produces. -/
inductive PyErr where
  | zeroDivisionError
  | valueErrorEmptySeq
  | degenerateAllocation
  | insufficientLevels
deriving DecidableEq, Repr

/-- Explicit bind on `Except`, used instead of monadic notation so that
proofs can unfold it with `simp`. -/
def ebind {α β : Type} (x : Except PyErr α) (f : α → Except PyErr β) : Except PyErr β :=
  match x with
  | .error e => .error e
  | .ok a => f a

@[simp] theorem ebind_ok {α β : Type} (a : α) (f : α → Except PyErr β) :
    ebind (.ok a) f = f a := rfl

@[simp] theorem ebind_error {α β : Type} (e : PyErr) (f : α → Except PyErr β) :
    ebind (.error e) f = .error e := rfl

/-- Python `x / y` on `Decimal`s: raises on a zero divisor. -/
def pyDiv (a b : ℚ) : Except PyErr ℚ :=
  if b = 0 then .error .zeroDivisionError else .ok (a / b)

/-- Python `min(xs)`: `ValueError` on an empty sequence.  On a nonempty list
`List.min?` returns exactly `foldl min`, as Python does. -/
def pyMin (l : List ℚ) : Except PyErr ℚ :=
  match l.min? with
  | none => .error .valueErrorEmptySeq
  | some m => .ok m

/-- Python `max(xs)`: `ValueError` on an empty sequence. -/
def pyMax (l : List ℚ) : Except PyErr ℚ :=
  match l.max? with
  | none => .error .valueErrorEmptySeq
  | some m => .ok m

/-- `position_executor.data_types.TrailingStop` as populated by the builder. -/
structure TrailingStop where
  activation_price : ℚ
  trailing_delta : ℚ
deriving DecidableEq, Repr

/-- `dca_executor.data_types.DCAExecutorConfig`, restricted to the fields the
builder populates (modelled as a plain record). -/
structure DCAExecutorConfig where
  timestamp : ℚ
  level_id : String
  connector_name : String
  trading_pair : String
  prices : List ℚ
  amounts_quote : List ℚ
  leverage : ℕ
  side : TradeType
  time_limit : ℕ
  stop_loss : ℚ
  trailing_stop : TrailingStop
  activation_bounds : Option (List ℚ)
  take_profit : ℚ
deriving DecidableEq, Repr

/-- The static controller parameters `get_executor_config` reads from
`self.config` (besides the DCA weight list, passed separately). -/
structure ControllerParams where
  stop_loss : ℚ
  trailing_delta : ℚ
  take_profit : ℚ
  time_limit : ℕ
  leverage : ℕ
  connector_name : String
  trading_pair : String
  activation_bounds : Option (List ℚ)
deriving DecidableEq, Repr

/-- Source line 145: `[c for c in high_clusters if c > price]`. -/
def relevant_high_clusters (price : ℚ) (high_clusters : List ℚ) : List ℚ :=
  high_clusters.filter (fun c => price < c)

/-- Source line 146: `[c for c in low_clusters if c < price]`. -/
def relevant_low_clusters (price : ℚ) (low_clusters : List ℚ) : List ℚ :=
  low_clusters.filter (fun c => c < price)

/-- Source line 149: low clusters for a buy, high clusters for a sell. -/
def selected_clusters (trade_type : TradeType) (price : ℚ)
    (high_clusters low_clusters : List ℚ) : List ℚ :=
  if trade_type = .buy then relevant_low_clusters price low_clusters
  else relevant_high_clusters price high_clusters

/-- Source lines 152–155: truncate the weight list when it is longer than
the ladder, keep it unchanged otherwise. -/
def adjusted_amounts_pct (dca_amounts_pct : List ℚ) (selected : List ℚ) : List ℚ :=
  if selected.length + 1 < dca_amounts_pct.length then
    dca_amounts_pct.take (selected.length + 1)
  else dca_amounts_pct

/-- Source line 160: `[price] + [Decimal(c) for c in selected_clusters]`. -/
def ladder_prices (price : ℚ) (selected : List ℚ) : List ℚ := price :: selected

/-- Source line 161: `[amount * pct * price for pct, price in
zip(adjusted_amounts_pct, prices)]` (the comprehension's `price` is the
ladder level, shadowing the entry price). -/
def ladder_amounts_quote (amount : ℚ) (adjusted prices : List ℚ) : List ℚ :=
  List.zipWith (fun pct price => amount * pct * price) adjusted prices

/-- Source line 163: `sum(p * a for p, a in zip(prices, amounts_quote)) /
sum(amounts_quote)` — an unguarded `Decimal` division. -/
def breakeven_price_calc (prices amounts_quote : List ℚ) : Except PyErr ℚ :=
  pyDiv (List.zipWith (fun p a => p * a) prices amounts_quote).sum amounts_quote.sum

/-- `__init__` line 105: `[amount / sum(dist) for amount in dist]` (weight
normalisation; an empty or zero-sum distribution would raise at startup). -/
def dca_amounts_pct_of (dca_amounts_distribution : List ℚ) : Except PyErr (List ℚ) :=
  if dca_amounts_distribution.sum = 0 then .error .zeroDivisionError
  else .ok (dca_amounts_distribution.map (fun a => a / dca_amounts_distribution.sum))

/-- `MarroqController.get_executor_config` (source lines 127–189), with the
market-data snapshot abstracted into its inputs: the cluster lists produced
by `find_and_cluster_peaks`, the extremes `candles['high'].max()` /
`candles['low'].min()`, the trade type decoded from the level id, and the
wall-clock timestamp `now`.  Evaluation order of the fallible steps follows
the Python source: conversion to the breakeven price first, then (per side)
`min`/`max` of the selected clusters, the stop-loss percentage division,
`min`/`max` of the opposite-side clusters and the activation-price
division. -/
def get_executor_config (cfg : ControllerParams) (dca_amounts_pct : List ℚ)
    (level_id : String) (trade_type : TradeType) (price amount : ℚ)
    (high_clusters low_clusters : List ℚ) (candles_high_max candles_low_min : ℚ)
    (now : ℚ) : Except PyErr DCAExecutorConfig :=
  let relevant_high := relevant_high_clusters price high_clusters
  let relevant_low := relevant_low_clusters price low_clusters
  let selected := selected_clusters trade_type price high_clusters low_clusters
  let adjusted := adjusted_amounts_pct dca_amounts_pct selected
  let total_range := candles_high_max - candles_low_min
  let prices := ladder_prices price selected
  let amounts_quote := ladder_amounts_quote amount adjusted prices
  ebind (breakeven_price_calc prices amounts_quote) (fun breakeven_price =>
    match trade_type with
    | .buy =>
        ebind (pyMin selected) (fun mn =>
        let sl_price := mn - total_range * cfg.stop_loss
        ebind (pyDiv (breakeven_price - sl_price) breakeven_price) (fun sl_pct =>
        ebind (pyMin relevant_high) (fun trailing_stop_price =>
        ebind (pyDiv (price - trailing_stop_price) price) (fun act =>
        .ok { timestamp := now, level_id := level_id,
              connector_name := cfg.connector_name,
              trading_pair := cfg.trading_pair, prices := prices,
              amounts_quote := amounts_quote, leverage := cfg.leverage,
              side := trade_type, time_limit := cfg.time_limit,
              stop_loss := sl_pct,
              trailing_stop := { activation_price := act,
                                 trailing_delta := cfg.trailing_delta },
              activation_bounds := cfg.activation_bounds,
              take_profit := cfg.take_profit }))))
    | .sell =>
        ebind (pyMax selected) (fun mx =>
        let sl_price := mx + total_range * cfg.stop_loss
        ebind (pyDiv (sl_price - breakeven_price) breakeven_price) (fun sl_pct =>
        ebind (pyMax relevant_low) (fun trailing_stop_price =>
        ebind (pyDiv (price - trailing_stop_price) price) (fun act =>
        .ok { timestamp := now, level_id := level_id,
              connector_name := cfg.connector_name,
              trading_pair := cfg.trading_pair, prices := prices,
              amounts_quote := amounts_quote, leverage := cfg.leverage,
              side := trade_type, time_limit := cfg.time_limit,
              stop_loss := sl_pct,
              trailing_stop := { activation_price := act,
                                 trailing_delta := cfg.trailing_delta },
              activation_bounds := cfg.activation_bounds,
              take_profit := cfg.take_profit })))))

/-- A fixed set of controller parameters used by concrete test inputs. -/
def exampleParams : ControllerParams :=
  { stop_loss := 1/100, trailing_delta := 1/100, take_profit := 1/100,
    time_limit := 60, leverage := 1, connector_name := "binance",
    trading_pair := "ETH-USDT", activation_bounds := none }

end Marroq

namespace Marroq

theorem pyDiv_ok_iff {a b q : ℚ} : pyDiv a b = .ok q ↔ b ≠ 0 ∧ a / b = q := by
  unfold pyDiv
  split
  · simp_all
  · simp_all

theorem pyDiv_zero (a : ℚ) : pyDiv a 0 = .error .zeroDivisionError := by
  simp [pyDiv]

theorem pyMin_ok_iff {l : List ℚ} {m : ℚ} : pyMin l = .ok m ↔ l.min? = some m := by
  unfold pyMin
  cases l.min? <;> simp

theorem pyMax_ok_iff {l : List ℚ} {m : ℚ} : pyMax l = .ok m ↔ l.max? = some m := by
  unfold pyMax
  cases l.max? <;> simp

theorem pyMin_nil : pyMin [] = .error .valueErrorEmptySeq := rfl

theorem pyMax_nil : pyMax [] = .error .valueErrorEmptySeq := rfl

/-- Inversion on a successful `get_executor_config` call: the emitted plan's
price ladder and quote amounts are exactly the ones computed on source lines
160–161, the amount sum is nonzero (the breakeven division succeeded), the
reference price is nonzero (the activation division succeeded), and the
trailing-stop activation price is `(price - m) / price` for `m` the
minimum relevant high cluster (buy) resp. maximum relevant low cluster
(sell). -/
theorem get_executor_config_ok_shape
    (cfg : ControllerParams) (dpct : List ℚ) (level_id : String) (tt : TradeType)
    (price amount : ℚ) (hc lc : List ℚ) (hmax lmin now : ℚ) (c : DCAExecutorConfig)
    (h : get_executor_config cfg dpct level_id tt price amount hc lc hmax lmin now = .ok c) :
    c.prices = ladder_prices price (selected_clusters tt price hc lc) ∧
    c.amounts_quote = ladder_amounts_quote amount
        (adjusted_amounts_pct dpct (selected_clusters tt price hc lc))
        (ladder_prices price (selected_clusters tt price hc lc)) ∧
    c.amounts_quote.sum ≠ 0 ∧ price ≠ 0 ∧
    (tt = .buy → ∃ m, pyMin (relevant_high_clusters price hc) = .ok m ∧
        c.trailing_stop.activation_price = (price - m) / price) ∧
    (tt = .sell → ∃ m, pyMax (relevant_low_clusters price lc) = .ok m ∧
        c.trailing_stop.activation_price = (price - m) / price) := by
  cases tt with
  | buy =>
    simp only [get_executor_config] at h
    cases hbe : breakeven_price_calc (ladder_prices price (selected_clusters .buy price hc lc))
        (ladder_amounts_quote amount (adjusted_amounts_pct dpct (selected_clusters .buy price hc lc))
          (ladder_prices price (selected_clusters .buy price hc lc))) with
    | error e => rw [hbe] at h; simp at h
    | ok be =>
      rw [hbe] at h
      rw [ebind_ok] at h
      have hsum : (ladder_amounts_quote amount
          (adjusted_amounts_pct dpct (selected_clusters .buy price hc lc))
          (ladder_prices price (selected_clusters .buy price hc lc))).sum ≠ 0 := by
        intro h0
        rw [breakeven_price_calc, h0, pyDiv_zero] at hbe
        cases hbe
      cases hmn : pyMin (selected_clusters .buy price hc lc) with
      | error e => rw [hmn] at h; simp at h
      | ok mn =>
        rw [hmn] at h
        rw [ebind_ok] at h
        cases hsl : pyDiv (be - (mn - (hmax - lmin) * cfg.stop_loss)) be with
        | error e => rw [hsl] at h; simp at h
        | ok sl_pct =>
          rw [hsl] at h
          rw [ebind_ok] at h
          cases htr : pyMin (relevant_high_clusters price hc) with
          | error e => rw [htr] at h; simp at h
          | ok m =>
            rw [htr] at h
            rw [ebind_ok] at h
            cases hact : pyDiv (price - m) price with
            | error e => rw [hact] at h; simp at h
            | ok act =>
              rw [hact] at h
              rw [ebind_ok] at h
              cases h
              obtain ⟨hp, hdiv⟩ := pyDiv_ok_iff.mp hact
              refine ⟨rfl, rfl, hsum, hp, fun _ => ⟨m, rfl, ?_⟩, fun hs => nomatch hs⟩
              simpa using hdiv.symm
  | sell =>
    simp only [get_executor_config] at h
    cases hbe : breakeven_price_calc (ladder_prices price (selected_clusters .sell price hc lc))
        (ladder_amounts_quote amount (adjusted_amounts_pct dpct (selected_clusters .sell price hc lc))
          (ladder_prices price (selected_clusters .sell price hc lc))) with
    | error e => rw [hbe] at h; simp at h
    | ok be =>
      rw [hbe] at h
      rw [ebind_ok] at h
      have hsum : (ladder_amounts_quote amount
          (adjusted_amounts_pct dpct (selected_clusters .sell price hc lc))
          (ladder_prices price (selected_clusters .sell price hc lc))).sum ≠ 0 := by
        intro h0
        rw [breakeven_price_calc, h0, pyDiv_zero] at hbe
        cases hbe
      cases hmx : pyMax (selected_clusters .sell price hc lc) with
      | error e => rw [hmx] at h; simp at h
      | ok mx =>
        rw [hmx] at h
        rw [ebind_ok] at h
        cases hsl : pyDiv (mx + (hmax - lmin) * cfg.stop_loss - be) be with
        | error e => rw [hsl] at h; simp at h
        | ok sl_pct =>
          rw [hsl] at h
          rw [ebind_ok] at h
          cases htr : pyMax (relevant_low_clusters price lc) with
          | error e => rw [htr] at h; simp at h
          | ok m =>
            rw [htr] at h
            rw [ebind_ok] at h
            cases hact : pyDiv (price - m) price with
            | error e => rw [hact] at h; simp at h
            | ok act =>
              rw [hact] at h
              rw [ebind_ok] at h
              cases h
              obtain ⟨hp, hdiv⟩ := pyDiv_ok_iff.mp hact
              refine ⟨rfl, rfl, hsum, hp, ?_, fun _ => ⟨m, rfl, ?_⟩⟩
              · intro hb
                exact nomatch hb
              · simpa using hdiv.symm

end Marroq

namespace Marroq

/-- C1: on every successful build the price ladder has `selected + 1` levels
but the quote-amount list is truncated to the weight-list length by `zip`,
so its length is `min (selected + 1) (len weights)`; the two lengths agree
exactly when the weight list is long enough. -/
theorem marroq_plan_lengths
    (cfg : ControllerParams) (dpct : List ℚ) (level_id : String) (tt : TradeType)
    (price amount : ℚ) (hc lc : List ℚ) (hmax lmin now : ℚ) (c : DCAExecutorConfig)
    (h : get_executor_config cfg dpct level_id tt price amount hc lc hmax lmin now = .ok c) :
    c.prices.length = (selected_clusters tt price hc lc).length + 1 ∧
    c.amounts_quote.length = min ((selected_clusters tt price hc lc).length + 1) dpct.length ∧
    1 ≤ c.prices.length ∧ 1 ≤ c.amounts_quote.length ∧
    (c.prices.length = c.amounts_quote.length ↔
      (selected_clusters tt price hc lc).length + 1 ≤ dpct.length) := by
  obtain ⟨hp, ha, hs, -, -, -⟩ :=
    get_executor_config_ok_shape cfg dpct level_id tt price amount hc lc hmax lmin now c h
  have hlp : c.prices.length = (selected_clusters tt price hc lc).length + 1 := by
    rw [hp, ladder_prices]
    simp
  have hla : c.amounts_quote.length =
      min ((selected_clusters tt price hc lc).length + 1) dpct.length := by
    rw [ha, ladder_amounts_quote, List.length_zipWith, adjusted_amounts_pct]
    split
    · rename_i hlt
      simp only [List.length_take, ladder_prices, List.length_cons]
      omega
    · rename_i hge
      simp only [ladder_prices, List.length_cons]
      omega
  have hne : c.amounts_quote ≠ [] := fun h0 => hs (by simp [h0])
  have h1 : 1 ≤ c.amounts_quote.length := by
    cases hcc : c.amounts_quote with
    | nil => exact absurd hcc hne
    | cons x xs => simp [hcc]
  exact ⟨hlp, hla, by omega, h1, by omega⟩

/-- C1 counterexample: a successful buy-side build whose ladder has six
prices but only four quote amounts (five low clusters below the reference
price, a four-entry weight list), refuting
`len(prices) == len(amounts_quote)`. -/
theorem marroq_plan_length_mismatch_cex :
    (get_executor_config exampleParams [4/10, 3/10, 2/10, 1/10] "buy_0"
        .buy 100 1 [110] [90, 80, 70, 60, 50] 110 50 0).map
      (fun c => (c.prices.length, c.amounts_quote.length)) = .ok (6, 4) ∧ (6 : ℕ) ≠ 4 := by
  constructor
  · norm_num [get_executor_config, selected_clusters, relevant_low_clusters,
      relevant_high_clusters, adjusted_amounts_pct, ladder_prices, ladder_amounts_quote,
      breakeven_price_calc, pyDiv, pyMin, pyMax, List.min?, List.max?, exampleParams,
      List.filter, Except.map]
  · decide

end Marroq

namespace Marroq

theorem marroq_plan_lengths_witness :
    ([100, 90, 80, 70, 60, 50] : List ℚ).length =
      (selected_clusters .buy 100 [110] [90, 80, 70, 60, 50]).length + 1 ∧
    ([40, 27, 16, 7] : List ℚ).length =
      min ((selected_clusters .buy 100 [110] [90, 80, 70, 60, 50]).length + 1)
        ([4/10, 3/10, 2/10, 1/10] : List ℚ).length := by
  have hok : get_executor_config exampleParams [4/10, 3/10, 2/10, 1/10] "buy_0"
      .buy 100 1 [110] [90, 80, 70, 60, 50] 110 50 0 =
      .ok ⟨0, "buy_0", "binance", "ETH-USDT", [100, 90, 80, 70, 60, 50], [40, 27, 16, 7],
        1, .buy, 60, 1877/4100, ⟨-(1/10), 1/100⟩, none, 1/100⟩ := by
    norm_num [get_executor_config, selected_clusters, relevant_low_clusters,
      relevant_high_clusters, adjusted_amounts_pct, ladder_prices, ladder_amounts_quote,
      breakeven_price_calc, pyDiv, pyMin, pyMax, List.min?, List.max?, exampleParams,
      List.filter]
  have H := marroq_plan_lengths exampleParams [4/10, 3/10, 2/10, 1/10] "buy_0"
    .buy 100 1 [110] [90, 80, 70, 60, 50] 110 50 0 _ hok
  exact ⟨H.1, H.2.1⟩

/-- C2: if the ladder's quote amounts sum to zero the builder fails with an
unguarded division-by-zero error (there is no `DegenerateAllocation` guard);
whenever the sum is nonzero the breakeven price is the amount-weighted
average `sum(price_i * amount_i) / sum(amount_i)`. -/
theorem marroq_breakeven_behaviour (cfg : ControllerParams) (dpct : List ℚ)
    (level_id : String) (tt : TradeType) (price amount : ℚ) (hc lc : List ℚ)
    (hmax lmin now : ℚ) :
    ((ladder_amounts_quote amount
        (adjusted_amounts_pct dpct (selected_clusters tt price hc lc))
        (ladder_prices price (selected_clusters tt price hc lc))).sum = 0 →
      get_executor_config cfg dpct level_id tt price amount hc lc hmax lmin now =
        .error .zeroDivisionError) ∧
    (∀ prices amounts : List ℚ, amounts.sum ≠ 0 →
      breakeven_price_calc prices amounts =
        .ok ((List.zipWith (fun p a => p * a) prices amounts).sum / amounts.sum)) := by
  constructor
  · intro h0
    simp only [get_executor_config]
    rw [breakeven_price_calc, h0, pyDiv_zero, ebind_error]
  · intro prices amounts hs
    rw [breakeven_price_calc, pyDiv, if_neg hs]

/-- C2 counterexample: a zero-total ladder (total order amount `0`) makes the
build fail with the raw division error, not with the recoverable
`DegenerateAllocation` the claim postulates. -/
theorem marroq_degenerate_allocation_cex :
    get_executor_config exampleParams [1] "buy_0" .buy 100 0 [110] [90] 110 50 0 =
      .error .zeroDivisionError ∧
    PyErr.zeroDivisionError ≠ PyErr.degenerateAllocation := by
  constructor
  · norm_num [get_executor_config, selected_clusters, relevant_low_clusters,
      relevant_high_clusters, adjusted_amounts_pct, ladder_prices, ladder_amounts_quote,
      breakeven_price_calc, pyDiv, exampleParams, List.filter]
  · decide

theorem marroq_breakeven_behaviour_witness :
    get_executor_config exampleParams [1] "buy_1" .buy 100 0 [110] [90] 110 50 0 =
      .error .zeroDivisionError ∧
    breakeven_price_calc [100] [50] = .ok 100 := by
  have H := marroq_breakeven_behaviour exampleParams [1] "buy_1" .buy 100 0 [110] [90] 110 50 0
  constructor
  · exact H.1 (by norm_num [ladder_amounts_quote, adjusted_amounts_pct, ladder_prices,
      selected_clusters, relevant_low_clusters, List.filter])
  · have h2 := H.2 [100] [50] (by norm_num)
    norm_num [List.zipWith] at h2
    exact h2

/-- C3: when cluster selection yields zero clusters on the order's side the
build does *not* fail with a recoverable `InsufficientLevels` error: it
raises the unguarded `ZeroDivisionError` if the (entry-only) amount list
sums to zero, and otherwise the `ValueError` of `min()`/`max()` on the
empty cluster list. -/
theorem marroq_empty_side_raises (cfg : ControllerParams) (dpct : List ℚ)
    (level_id : String) (tt : TradeType) (price amount : ℚ) (hc lc : List ℚ)
    (hmax lmin now : ℚ)
    (hsel : selected_clusters tt price hc lc = []) :
    get_executor_config cfg dpct level_id tt price amount hc lc hmax lmin now =
      .error (if (ladder_amounts_quote amount (adjusted_amounts_pct dpct [])
                  (ladder_prices price [])).sum = 0
              then PyErr.zeroDivisionError else PyErr.valueErrorEmptySeq) ∧
    (∀ e, get_executor_config cfg dpct level_id tt price amount hc lc hmax lmin now =
        .error e → e ≠ .insufficientLevels) := by
  have main : get_executor_config cfg dpct level_id tt price amount hc lc hmax lmin now =
      .error (if (ladder_amounts_quote amount (adjusted_amounts_pct dpct [])
                  (ladder_prices price [])).sum = 0
              then PyErr.zeroDivisionError else PyErr.valueErrorEmptySeq) := by
    simp only [get_executor_config, hsel]
    by_cases h0 : (ladder_amounts_quote amount (adjusted_amounts_pct dpct [])
        (ladder_prices price [])).sum = 0
    · rw [breakeven_price_calc, h0, pyDiv_zero, ebind_error]
      simp
    · rw [breakeven_price_calc, pyDiv, if_neg h0, ebind_ok, if_neg h0]
      cases tt with
      | buy => simp [pyMin_nil]
      | sell => simp [pyMax_nil]
  refine ⟨main, fun e he => ?_⟩
  rw [main] at he
  have : e = (if (ladder_amounts_quote amount (adjusted_amounts_pct dpct [])
      (ladder_prices price [])).sum = 0
      then PyErr.zeroDivisionError else PyErr.valueErrorEmptySeq) := by
    cases he
    rfl
  rw [this]
  split
  · decide
  · decide

/-- C3 counterexample: with no low cluster below a buy's reference price the
build raises the `ValueError` of `min()` on an empty sequence — not the
recoverable `InsufficientLevels` error the claim postulates. -/
theorem marroq_insufficient_levels_cex :
    get_executor_config exampleParams [1] "buy_0" .buy 100 1 [110] [] 110 50 0 =
      .error .valueErrorEmptySeq ∧
    PyErr.valueErrorEmptySeq ≠ PyErr.insufficientLevels := by
  constructor
  · norm_num [get_executor_config, selected_clusters, relevant_low_clusters,
      relevant_high_clusters, adjusted_amounts_pct, ladder_prices, ladder_amounts_quote,
      breakeven_price_calc, pyDiv, pyMin, exampleParams, List.filter, List.min?]
  · decide

theorem marroq_empty_side_raises_witness :
    get_executor_config exampleParams [1/2, 1/2] "sell_0" .sell 100 1 [] [90] 110 50 0 =
      .error .valueErrorEmptySeq := by
  have H := marroq_empty_side_raises exampleParams [1/2, 1/2] "sell_0" .sell 100 1 [] [90]
    110 50 0 (by rw [selected_clusters, if_neg (by decide)]; rfl)
  have h1 := H.1
  norm_num [ladder_amounts_quote, adjusted_amounts_pct, ladder_prices] at h1
  exact h1

end Marroq

namespace Marroq

/-- C6: on every successful build the trailing-stop activation price
emitted on line 185, `(price - trailing_stop_price) / price`, is the
*signed* quantity `(price - m) / price`, where `m` is the nearest
opposite-side cluster: `min(relevant_high_clusters)` for a buy (line 169),
`max(relevant_low_clusters)` for a sell (line 173) — in particular `m` is a
member of the relevant opposite-side cluster list, above the reference
price for a buy and below it for a sell.  For a positive reference price
this signed quantity equals the fractional distance `|m - price| / price`
on a sell (where `m < price` makes `price - m` positive), but its
*negation* on a buy (where `price < m` makes it negative) — refuting the
claim's `|nearestOpposite - referencePrice| / referencePrice` for the buy
side. -/
theorem marroq_trailing_activation (cfg : ControllerParams) (dpct : List ℚ)
    (level_id : String) (tt : TradeType) (price amount : ℚ) (hc lc : List ℚ)
    (hmax lmin now : ℚ) (c : DCAExecutorConfig)
    (h : get_executor_config cfg dpct level_id tt price amount hc lc hmax lmin now = .ok c) :
    (tt = .buy → ∃ m, (relevant_high_clusters price hc).min? = some m ∧
        m ∈ relevant_high_clusters price hc ∧ price < m ∧
        c.trailing_stop.activation_price = (price - m) / price ∧
        (0 < price → c.trailing_stop.activation_price = -(|m - price| / price))) ∧
    (tt = .sell → ∃ m, (relevant_low_clusters price lc).max? = some m ∧
        m ∈ relevant_low_clusters price lc ∧ m < price ∧
        c.trailing_stop.activation_price = (price - m) / price ∧
        (0 < price → c.trailing_stop.activation_price = |m - price| / price)) := by
  obtain ⟨-, -, -, -, hbuy, hsell⟩ :=
    get_executor_config_ok_shape cfg dpct level_id tt price amount hc lc hmax lmin now c h
  constructor
  · intro hb
    obtain ⟨m, hm, hact⟩ := hbuy hb
    have hm' := pyMin_ok_iff.mp hm
    have hmem : m ∈ relevant_high_clusters price hc :=
      List.min?_mem (fun a b => min_choice a b) hm'
    have hlt : price < m := by
      have := (List.mem_filter.mp hmem).2
      simpa using this
    refine ⟨m, hm', hmem, hlt, hact, fun hpos => ?_⟩
    rw [hact, abs_of_pos (sub_pos.mpr hlt), ← neg_div, neg_sub]
  · intro hs
    obtain ⟨m, hm, hact⟩ := hsell hs
    have hm' := pyMax_ok_iff.mp hm
    have hmem : m ∈ relevant_low_clusters price lc :=
      List.max?_mem (fun a b => max_choice a b) hm'
    have hlt : m < price := by
      have := (List.mem_filter.mp hmem).2
      simpa using this
    refine ⟨m, hm', hmem, hlt, hact, fun hpos => ?_⟩
    rw [hact, abs_of_neg (sub_neg.mpr hlt), neg_sub]

/-- C6 counterexample, traced through the source: a buy at reference price
`100` with low clusters `[90, 80, 70, 60, 50]` (all selected) and one high
cluster `110` builds successfully; line 169 picks
`trailing_stop_price = min([110]) = 110` and line 185 emits
`activation_price = (100 - 110) / 100 = -1/10` — which is *not* the
absolute fractional distance `|110 - 100| / 100 = 1/10` the claim
requires. -/
theorem marroq_trailing_sign_cex :
    (get_executor_config exampleParams [4/10, 3/10, 2/10, 1/10] "buy_2" .buy 100 1 [110]
        [90, 80, 70, 60, 50] 110 50 0).map (fun c => c.trailing_stop.activation_price) =
      .ok (-(1/10)) ∧ (-(1/10) : ℚ) ≠ |(110 : ℚ) - 100| / 100 := by
  constructor
  · norm_num [get_executor_config, selected_clusters, relevant_low_clusters,
      relevant_high_clusters, adjusted_amounts_pct, ladder_prices, ladder_amounts_quote,
      breakeven_price_calc, pyDiv, pyMin, pyMax, List.min?, List.max?, exampleParams,
      List.filter, Except.map]
  · rw [abs_of_pos (by norm_num)]
    norm_num

theorem marroq_trailing_activation_witness :
    ∃ m, (relevant_low_clusters 100 [90]).max? = some m ∧
      m ∈ relevant_low_clusters 100 [90] ∧ m < 100 ∧
      (⟨0, "sell_0", "binance", "ETH-USDT", [100, 110], [100], 1, .sell, 60, 53/500,
        ⟨1/10, 1/100⟩, none, 1/100⟩ : DCAExecutorConfig).trailing_stop.activation_price =
        (100 - m) / 100 ∧
      (0 < (100 : ℚ) →
        (⟨0, "sell_0", "binance", "ETH-USDT", [100, 110], [100], 1, .sell, 60, 53/500,
          ⟨1/10, 1/100⟩, none, 1/100⟩ : DCAExecutorConfig).trailing_stop.activation_price =
          |m - 100| / 100) := by
  have hok : get_executor_config exampleParams [1] "sell_0" .sell 100 1 [110] [90] 110 50 0 =
      .ok ⟨0, "sell_0", "binance", "ETH-USDT", [100, 110], [100], 1, .sell, 60, 53/500,
        ⟨1/10, 1/100⟩, none, 1/100⟩ := by
    norm_num +decide [get_executor_config, selected_clusters, relevant_low_clusters,
      relevant_high_clusters, adjusted_amounts_pct, ladder_prices, ladder_amounts_quote,
      breakeven_price_calc, pyDiv, pyMin, pyMax, List.min?, List.max?, exampleParams,
      List.filter]
  exact (marroq_trailing_activation exampleParams [1] "sell_0" .sell 100 1 [110] [90]
    110 50 0 _ hok).2 rfl

end Marroq

namespace GenericExec

/-- Errors raised inside `GenericExecutor.execute_actions`.
`valueErrorRemove` models the `ValueError` Python's `list.remove` raises
when the element is absent; `invalidActionTarget` is the error name the
specification postulates for a `Store` on an active executor — the source
has no such guard and never raises it (included only for statability). -/
inductive GPyErr where
  | valueErrorRemove
  | invalidActionTarget
deriving DecidableEq, Repr

/-- The three concrete executor kinds dispatched over in
`create_executor`. -/
inductive ExecutorKind where
  | position
  | dca
  | arbitrage
deriving DecidableEq, Repr

/-- An executor object as `execute_actions` observes it: its config id, its
kind, and the two status flags the handler reads (`is_active`,
`is_closed`).  Python compares executor objects by identity; the model uses
structural equality, which coincides with identity when ids are unique. -/
structure Executor where
  id : String
  kind : ExecutorKind
  is_active : Bool
  is_closed : Bool
deriving DecidableEq, Repr

/-- The config payload of a `CreateExecutorAction`, reduced to what
`create_executor` dispatches on. -/
structure ExecutorConfigG where
  id : String
  kind : ExecutorKind
deriving DecidableEq, Repr

/-- `ExecutorAction` variants (`CreateExecutorAction`,
`StopExecutorAction`, `StoreExecutorAction`).  The model's `Action` type is
closed, so the `else: raise ValueError` branch for unknown action types is
unreachable by construction. -/
inductive Action where
  | create (executor_config : ExecutorConfigG)
  | stop (executor_id : String)
  | store (executor_id : String)
deriving DecidableEq, Repr

/-- The mutable state of a `GenericExecutor`: the three registry lists
(`__init__` lines 44–46) plus two effect logs for the external
collaborators — executors handed to `MarketsRecorder.store_executor`, and
ids on which `early_stop` was requested. -/
structure State where
  position_executors : List Executor
  dca_executors : List Executor
  arbitrage_executors : List Executor
  stored : List Executor
  early_stopped : List String
deriving DecidableEq, Repr

/-- `get_executor_by_id` (lines 158–164): first match by config id over
position, then DCA, then arbitrage executors. -/
def get_executor_by_id (s : State) (executor_id : String) : Option Executor :=
  (s.position_executors ++ s.dca_executors ++ s.arbitrage_executors).find?
    (fun e => e.id == executor_id)

/-- `create_executor` (lines 137–156): instantiate and start a worker of
the kind matching the config, appending it to that kind's registry list. -/
def create_executor (s : State) (cfg : ExecutorConfigG) : State :=
  let e : Executor := ⟨cfg.id, cfg.kind, true, false⟩
  match cfg.kind with
  | .position => { s with position_executors := s.position_executors ++ [e] }
  | .dca => { s with dca_executors := s.dca_executors ++ [e] }
  | .arbitrage => { s with arbitrage_executors := s.arbitrage_executors ++ [e] }

/-- One iteration of the `execute_actions` loop (lines 119–135).  The
`Store` branch mirrors lines 129–133: look the executor up by id; if it
exists and is closed, hand it to the recorder and then run
`self.dca_executors.remove(executor)` — which removes the first occurrence
from the *DCA* list only, and raises `ValueError` when the executor is not
in that list. -/
def execute_action (s : State) : Action → State × Option GPyErr
  | .create cfg => (create_executor s cfg, none)
  | .stop executor_id =>
      match get_executor_by_id s executor_id with
      | some e =>
          if e.is_active then ({ s with early_stopped := s.early_stopped ++ [e.id] }, none)
          else (s, none)
      | none => (s, none)
  | .store executor_id =>
      match get_executor_by_id s executor_id with
      | some e =>
          if e.is_closed then
            if s.dca_executors.contains e then
              ({ s with stored := s.stored ++ [e],
                        dca_executors := s.dca_executors.erase e }, none)
            else ({ s with stored := s.stored ++ [e] }, some .valueErrorRemove)
          else (s, none)
      | none => (s, none)

/-- `execute_actions` (lines 115–135): apply the actions in emission order;
an uncaught exception aborts the remaining actions and propagates, leaving
the state as mutated so far. -/
def execute_actions (s : State) : List Action → State × Option GPyErr
  | [] => (s, none)
  | a :: rest =>
      match execute_action s a with
      | (s', none) => execute_actions s' rest
      | (s', some e) => (s', some e)

end GenericExec

namespace GenericExec

/-- C7: a `Store` action whose target executor exists but is not closed is
a no-op — nothing is handed to the recorder, the registry state is
untouched, and the remaining actions of the tick are still applied. -/
theorem generic_store_non_closed_noop (s : State) (executor_id : String)
    (rest : List Action) (e : Executor)
    (hfind : get_executor_by_id s executor_id = some e)
    (hnc : e.is_closed = false) :
    execute_action s (.store executor_id) = (s, none) ∧
    execute_actions s (.store executor_id :: rest) = execute_actions s rest := by
  have h1 : execute_action s (.store executor_id) = (s, none) := by
    simp [execute_action, hfind, hnc]
  refine ⟨h1, ?_⟩
  simp [execute_actions, h1]

theorem generic_store_non_closed_noop_witness :
    execute_action ⟨[], [⟨"e1", .dca, true, false⟩], [], [], []⟩ (.store "e1") =
      (⟨[], [⟨"e1", .dca, true, false⟩], [], [], []⟩, none) ∧
    execute_actions ⟨[], [⟨"e1", .dca, true, false⟩], [], [], []⟩
        (.store "e1" :: [.stop "zz"]) =
      execute_actions ⟨[], [⟨"e1", .dca, true, false⟩], [], [], []⟩ [.stop "zz"] :=
  generic_store_non_closed_noop ⟨[], [⟨"e1", .dca, true, false⟩], [], [], []⟩ "e1"
    [.stop "zz"] ⟨"e1", .dca, true, false⟩ (by rfl) rfl

/-- C10: applying `Store` to a closed executor hands it to the recorder and
then removes it from the DCA list only: the position and arbitrage lists
are never mutated, so a closed position or arbitrage executor that is
stored stays in its own registry list.  (`List.erase` of a non-member is
the identity; in that case Python's `list.remove` additionally raises
`ValueError`, reported in the second component.) -/
theorem generic_store_closed_frame (s : State) (executor_id : String) (e : Executor)
    (hfind : get_executor_by_id s executor_id = some e) (hc : e.is_closed = true) :
    execute_actions s [.store executor_id] =
      ({ s with stored := s.stored ++ [e], dca_executors := s.dca_executors.erase e },
       if s.dca_executors.contains e then none else some .valueErrorRemove) := by
  by_cases hmem : e ∈ s.dca_executors
  · simp [execute_actions, execute_action, hfind, hc, hmem]
  · have herase : s.dca_executors.erase e = s.dca_executors :=
      List.erase_of_not_mem hmem
    simp [execute_actions, execute_action, hfind, hc, hmem, herase]

theorem generic_store_closed_frame_witness :
    execute_actions ⟨[⟨"p1", .position, false, true⟩], [], [], [], []⟩ [.store "p1"] =
      (⟨[⟨"p1", .position, false, true⟩], [], [], [⟨"p1", .position, false, true⟩], []⟩,
       some GPyErr.valueErrorRemove) := by
  have H := generic_store_closed_frame ⟨[⟨"p1", .position, false, true⟩], [], [], [], []⟩
    "p1" ⟨"p1", .position, false, true⟩ (by rfl) rfl
  simpa using H

end GenericExec

namespace PMM

/-- `SmartComponentStatus` (the states the script compares against). -/
inductive SmartComponentStatus where
  | not_started
  | active
  | terminated
deriving DecidableEq, Repr

/-- `ExecutorInfo` as read by the PMM script's proposal phases: id, type
tag, side, status, creation timestamp, activity flags, and the config's
trading pair (`x.config.trading_pair`). -/
structure ExecutorInfo where
  id : String
  type : String
  side : TradeType
  status : SmartComponentStatus
  timestamp : ℚ
  is_active : Bool
  is_trading : Bool
  trading_pair : String
deriving DecidableEq, Repr

/-- `StoreExecutorAction(executor_id=...)`. -/
structure StoreExecutorAction where
  executor_id : String
deriving DecidableEq, Repr

/-- `StrategyV2Base.filter_executors`: plain list filtering. -/
def filter_executors (executors : List ExecutorInfo)
    (filter_func : ExecutorInfo → Bool) : List ExecutorInfo :=
  executors.filter filter_func

/-- Insert into a descending-by-timestamp list, before the first element
whose timestamp is `≤` the inserted one (so an element inserted from the
left of the original list stays before later elements with equal
timestamps — the stability contract of Python's `sorted`). -/
def insert_by_ts_desc (e : ExecutorInfo) : List ExecutorInfo → List ExecutorInfo
  | [] => [e]
  | x :: xs =>
      if x.timestamp ≤ e.timestamp then e :: x :: xs
      else x :: insert_by_ts_desc e xs

/-- `sorted(executors, key=lambda x: x.timestamp, reverse=True)`: Python's
sort is stable, and any stable sort by the same key computes the same list,
so it is modelled by stable insertion sort. -/
def sort_by_ts_desc : List ExecutorInfo → List ExecutorInfo
  | [] => []
  | x :: xs => insert_by_ts_desc x (sort_by_ts_desc xs)

theorem mem_insert_by_ts_desc {y e : ExecutorInfo} {l : List ExecutorInfo} :
    y ∈ insert_by_ts_desc e l ↔ y = e ∨ y ∈ l := by
  induction l with
  | nil => simp [insert_by_ts_desc]
  | cons x xs ih =>
      rw [insert_by_ts_desc]
      split
      · simp
      · simp only [List.mem_cons, ih]
        tauto

theorem insert_by_ts_desc_perm (e : ExecutorInfo) (l : List ExecutorInfo) :
    (insert_by_ts_desc e l).Perm (e :: l) := by
  induction l with
  | nil => simp [insert_by_ts_desc]
  | cons x xs ih =>
      rw [insert_by_ts_desc]
      split
      · exact List.Perm.refl _
      · exact (List.Perm.cons x ih).trans (List.Perm.swap e x xs)

theorem sort_by_ts_desc_perm (l : List ExecutorInfo) : (sort_by_ts_desc l).Perm l := by
  induction l with
  | nil => exact List.Perm.refl _
  | cons x xs ih =>
      exact (insert_by_ts_desc_perm x (sort_by_ts_desc xs)).trans (List.Perm.cons x ih)

theorem insert_by_ts_desc_pairwise {e : ExecutorInfo} {l : List ExecutorInfo}
    (h : l.Pairwise (fun a b => b.timestamp ≤ a.timestamp)) :
    (insert_by_ts_desc e l).Pairwise (fun a b => b.timestamp ≤ a.timestamp) := by
  induction l with
  | nil => simp [insert_by_ts_desc]
  | cons x xs ih =>
      rw [insert_by_ts_desc]
      rcases List.pairwise_cons.mp h with ⟨hx, hxs⟩
      split
      · rename_i hle
        refine List.pairwise_cons.mpr ⟨?_, h⟩
        intro y hy
        rcases List.mem_cons.mp hy with rfl | hy'
        · exact hle
        · exact le_trans (hx y hy') hle
      · rename_i hgt
        refine List.pairwise_cons.mpr ⟨?_, ih hxs⟩
        intro y hy
        rcases mem_insert_by_ts_desc.mp hy with rfl | hy'
        · exact le_of_lt (lt_of_not_le hgt)
        · exact hx y hy'

theorem sort_by_ts_desc_pairwise (l : List ExecutorInfo) :
    (sort_by_ts_desc l).Pairwise (fun a b => b.timestamp ≤ a.timestamp) := by
  induction l with
  | nil => simp [sort_by_ts_desc]
  | cons x xs ih => exact insert_by_ts_desc_pairwise ih

/-- `PMMSingleLevel.store_actions_proposal` (lines 199–210): among the
terminated position executors, keep the newest `closed_executors_buffer`
(ordered by timestamp descending) and emit a `Store` action for each of
the rest. -/
def store_actions_proposal (all_executors : List ExecutorInfo)
    (closed_executors_buffer : ℕ) : List StoreExecutorAction :=
  let potential_executors_to_store := filter_executors all_executors
    (fun x => x.status == SmartComponentStatus.terminated && x.type == "position_executor")
  let sorted_executors := sort_by_ts_desc potential_executors_to_store
  if closed_executors_buffer < sorted_executors.length then
    (sorted_executors.drop closed_executors_buffer).map (fun e => ⟨e.id⟩)
  else []

end PMM

namespace PMM

/-- C8: with a registry of position executors containing `N` terminated
ones and retention buffer `B`, the store-proposal phase emits no action
when `N ≤ B` and otherwise exactly `N - B` actions — the ones left after
dropping the newest `B` of the timestamp-descending sort, so every proposed
executor's timestamp is `≤` every retained one's. -/
theorem pmm_store_retention (all_executors : List ExecutorInfo) (B : ℕ)
    (htype : ∀ x ∈ all_executors, x.type = "position_executor") :
    (store_actions_proposal all_executors B).length =
      (all_executors.filter (fun x => x.status == SmartComponentStatus.terminated)).length - B ∧
    ((all_executors.filter (fun x => x.status == SmartComponentStatus.terminated)).length ≤ B →
      store_actions_proposal all_executors B = []) ∧
    (B < (all_executors.filter (fun x => x.status == SmartComponentStatus.terminated)).length →
      ∃ s : List ExecutorInfo,
        (all_executors.filter (fun x => x.status == SmartComponentStatus.terminated)).Perm s ∧
        s.Pairwise (fun a b => b.timestamp ≤ a.timestamp) ∧
        store_actions_proposal all_executors B =
          (s.drop B).map (fun e => (⟨e.id⟩ : StoreExecutorAction)) ∧
        (s.take B).length = B ∧
        (∀ x ∈ s.drop B, ∀ y ∈ s.take B, x.timestamp ≤ y.timestamp)) := by
  have hfilter : filter_executors all_executors
      (fun x => x.status == SmartComponentStatus.terminated && x.type == "position_executor") =
      all_executors.filter (fun x => x.status == SmartComponentStatus.terminated) := by
    rw [filter_executors]
    refine List.filter_congr ?_
    intro x hx
    rw [htype x hx]
    simp
  have hprop : store_actions_proposal all_executors B =
      if B < (sort_by_ts_desc (all_executors.filter
          (fun x => x.status == SmartComponentStatus.terminated))).length then
        ((sort_by_ts_desc (all_executors.filter
            (fun x => x.status == SmartComponentStatus.terminated))).drop B).map
          (fun e => (⟨e.id⟩ : StoreExecutorAction))
      else [] := by
    rw [store_actions_proposal, hfilter]
  have hperm := sort_by_ts_desc_perm (all_executors.filter
      (fun x => x.status == SmartComponentStatus.terminated))
  have hlen := hperm.length_eq
  refine ⟨?_, ?_, ?_⟩
  · rw [hprop]
    split
    · rename_i hlt
      rw [List.length_map, List.length_drop, hlen]
    · rename_i hnlt
      rw [hlen] at hnlt
      simp only [List.length_nil]
      omega
  · intro hle
    rw [hprop, if_neg (by omega)]
  · intro hlt
    refine ⟨sort_by_ts_desc (all_executors.filter
        (fun x => x.status == SmartComponentStatus.terminated)), hperm.symm,
      sort_by_ts_desc_pairwise _, ?_, ?_, ?_⟩
    · rw [hprop, if_pos (by omega)]
    · rw [List.length_take]
      omega
    · have hpw := sort_by_ts_desc_pairwise (all_executors.filter
        (fun x => x.status == SmartComponentStatus.terminated))
      rw [← List.take_append_drop B (sort_by_ts_desc (all_executors.filter
        (fun x => x.status == SmartComponentStatus.terminated)))] at hpw
      have := (List.pairwise_append.mp hpw).2.2
      intro x hx y hy
      exact this y hy x hx

theorem pmm_store_retention_witness :
    (store_actions_proposal
        [⟨"e1", "position_executor", .buy, .terminated, 1, false, false, "P"⟩,
         ⟨"e2", "position_executor", .buy, .terminated, 2, false, false, "P"⟩,
         ⟨"e3", "position_executor", .sell, .terminated, 3, false, false, "P"⟩] 1).length =
      (([⟨"e1", "position_executor", .buy, .terminated, 1, false, false, "P"⟩,
         ⟨"e2", "position_executor", .buy, .terminated, 2, false, false, "P"⟩,
         ⟨"e3", "position_executor", .sell, .terminated, 3, false, false, "P"⟩] :
          List ExecutorInfo).filter
        (fun x => x.status == SmartComponentStatus.terminated)).length - 1 ∧
    ∃ s : List ExecutorInfo,
      (([⟨"e1", "position_executor", .buy, .terminated, 1, false, false, "P"⟩,
         ⟨"e2", "position_executor", .buy, .terminated, 2, false, false, "P"⟩,
         ⟨"e3", "position_executor", .sell, .terminated, 3, false, false, "P"⟩] :
          List ExecutorInfo).filter
        (fun x => x.status == SmartComponentStatus.terminated)).Perm s ∧
      s.Pairwise (fun a b => b.timestamp ≤ a.timestamp) ∧
      store_actions_proposal
        [⟨"e1", "position_executor", .buy, .terminated, 1, false, false, "P"⟩,
         ⟨"e2", "position_executor", .buy, .terminated, 2, false, false, "P"⟩,
         ⟨"e3", "position_executor", .sell, .terminated, 3, false, false, "P"⟩] 1 =
        (s.drop 1).map (fun e => (⟨e.id⟩ : StoreExecutorAction)) ∧
      (s.take 1).length = 1 ∧
      (∀ x ∈ s.drop 1, ∀ y ∈ s.take 1, x.timestamp ≤ y.timestamp) := by
  have H := pmm_store_retention
    [⟨"e1", "position_executor", .buy, .terminated, 1, false, false, "P"⟩,
     ⟨"e2", "position_executor", .buy, .terminated, 2, false, false, "P"⟩,
     ⟨"e3", "position_executor", .sell, .terminated, 3, false, false, "P"⟩] 1
    (by decide)
  exact ⟨H.1, H.2.2 (by decide)⟩

end PMM

namespace PMM

/-- The configuration fields `create_actions_proposal` reads
(`order_amount_quote`, `spread`, `leverage`); the triple-barrier block is
copied verbatim from the config into every action and is omitted as
inert. -/
structure PMMParams where
  order_amount_quote : ℚ
  spread : ℚ
  leverage : ℕ
deriving DecidableEq, Repr

/-- `PositionExecutorConfig` as populated on lines 159–168 / 177–186. -/
structure PositionExecutorConfig where
  timestamp : ℚ
  trading_pair : String
  exchange : String
  side : TradeType
  amount : ℚ
  entry_price : ℚ
  leverage : ℕ
deriving DecidableEq, Repr

/-- `CreateExecutorAction(executor_config=...)`. -/
structure CreateExecutorAction where
  executor_config : PositionExecutorConfig
deriving DecidableEq, Repr

/-- Lines 138–144: the two side-filtered lists of active position
executors, computed once per tick over the whole registry. -/
def active_side_position_executors (all_executors : List ExecutorInfo)
    (side : TradeType) : List ExecutorInfo :=
  filter_executors all_executors
    (fun x => x.side == side && x.type == "position_executor" && x.is_active)

/-- The loop body for one `(connector_name, trading_pair)` iteration
(lines 148–187): count the active executors of each side whose config
trading pair matches, and emit a buy entry at `mid * (1 - spread)` and/or a
sell entry at `mid * (1 + spread)` when the respective count is zero.
`order_amount = order_amount_quote / order_price`. -/
def pair_create_actions (cfgP : PMMParams) (now : ℚ) (mid_price : ℚ)
    (active_buy_position_executors active_sell_position_executors : List ExecutorInfo)
    (connector_name trading_pair : String) : List CreateExecutorAction :=
  let len_active_buys := (filter_executors active_buy_position_executors
      (fun x => x.trading_pair == trading_pair)).length
  let buys : List CreateExecutorAction :=
    if len_active_buys = 0 then
      [⟨⟨now, trading_pair, connector_name, .buy,
         cfgP.order_amount_quote / (mid_price * (1 - cfgP.spread)),
         mid_price * (1 - cfgP.spread), cfgP.leverage⟩⟩]
    else []
  let len_active_sells := (filter_executors active_sell_position_executors
      (fun x => x.trading_pair == trading_pair)).length
  let sells : List CreateExecutorAction :=
    if len_active_sells = 0 then
      [⟨⟨now, trading_pair, connector_name, .sell,
         cfgP.order_amount_quote / (mid_price * (1 + cfgP.spread)),
         mid_price * (1 + cfgP.spread), cfgP.leverage⟩⟩]
    else []
  buys ++ sells

/-- `PMMSingleLevel.create_actions_proposal` (lines 131–188).  `connectors`
pairs each connector name with `get_trading_pairs(connector_name)`; `mid`
is `get_price_by_type(connector, pair, MidPrice)`. -/
def create_actions_proposal (cfgP : PMMParams) (now : ℚ)
    (connectors : List (String × List String)) (mid : String → String → ℚ)
    (all_executors : List ExecutorInfo) : List CreateExecutorAction :=
  connectors.flatMap (fun cn =>
    cn.2.flatMap (fun trading_pair =>
      pair_create_actions cfgP now (mid cn.1 trading_pair)
        (active_side_position_executors all_executors .buy)
        (active_side_position_executors all_executors .sell)
        cn.1 trading_pair))

/-- Predicate selecting the buy-side actions for trading pair `p`. -/
def is_buy_for (p : String) (a : CreateExecutorAction) : Bool :=
  a.executor_config.side == TradeType.buy && a.executor_config.trading_pair == p

/-- Predicate selecting the sell-side actions for trading pair `p`. -/
def is_sell_for (p : String) (a : CreateExecutorAction) : Bool :=
  a.executor_config.side == TradeType.sell && a.executor_config.trading_pair == p

theorem pair_create_filter_buy_len (cfgP : PMMParams) (now m : ℚ)
    (AB AS : List ExecutorInfo) (c tp p : String) :
    ((pair_create_actions cfgP now m AB AS c tp).filter (is_buy_for p)).length =
      if (filter_executors AB (fun x => x.trading_pair == tp)).length = 0 ∧ tp = p
      then 1 else 0 := by
  rw [pair_create_actions]
  by_cases hp : tp = p
  · subst hp
    by_cases hb : filter_executors AB (fun x => x.trading_pair == tp) = [] <;>
      by_cases hs : filter_executors AS (fun x => x.trading_pair == tp) = [] <;>
        simp [hb, hs, is_buy_for, List.filter_append, List.length_eq_zero]
  · by_cases hb : filter_executors AB (fun x => x.trading_pair == tp) = [] <;>
      by_cases hs : filter_executors AS (fun x => x.trading_pair == tp) = [] <;>
        simp [hb, hs, hp, is_buy_for, List.filter_append, List.length_eq_zero]

theorem pair_create_filter_sell_len (cfgP : PMMParams) (now m : ℚ)
    (AB AS : List ExecutorInfo) (c tp p : String) :
    ((pair_create_actions cfgP now m AB AS c tp).filter (is_sell_for p)).length =
      if (filter_executors AS (fun x => x.trading_pair == tp)).length = 0 ∧ tp = p
      then 1 else 0 := by
  rw [pair_create_actions]
  by_cases hp : tp = p
  · subst hp
    by_cases hb : filter_executors AB (fun x => x.trading_pair == tp) = [] <;>
      by_cases hs : filter_executors AS (fun x => x.trading_pair == tp) = [] <;>
        simp [hb, hs, is_sell_for, List.filter_append, List.length_eq_zero]
  · by_cases hb : filter_executors AB (fun x => x.trading_pair == tp) = [] <;>
      by_cases hs : filter_executors AS (fun x => x.trading_pair == tp) = [] <;>
        simp [hb, hs, hp, is_sell_for, List.filter_append, List.length_eq_zero]

end PMM

namespace PMM

theorem flatMap_pairs_filter_buy_len (cfgP : PMMParams) (now : ℚ) (mid : String → ℚ)
    (AB AS : List ExecutorInfo) (c p : String) (ps : List String) :
    ((ps.flatMap (fun tp => pair_create_actions cfgP now (mid tp) AB AS c tp)).filter
        (is_buy_for p)).length =
      if (filter_executors AB (fun x => x.trading_pair == p)).length = 0
      then ps.count p else 0 := by
  induction ps with
  | nil => simp
  | cons tp rest ih =>
      rw [List.flatMap_cons, List.filter_append, List.length_append, ih,
        pair_create_filter_buy_len]
      by_cases hp : tp = p
      · subst hp
        by_cases hb : (filter_executors AB (fun x => x.trading_pair == tp)).length = 0
        · simp [hb, List.count_cons]
          omega
        · simp [hb, List.count_cons]
      · by_cases hb : (filter_executors AB (fun x => x.trading_pair == p)).length = 0
        · simp [hp, hb, List.count_cons, Ne.symm hp]
        · simp [hp, hb, List.count_cons]

theorem flatMap_pairs_filter_sell_len (cfgP : PMMParams) (now : ℚ) (mid : String → ℚ)
    (AB AS : List ExecutorInfo) (c p : String) (ps : List String) :
    ((ps.flatMap (fun tp => pair_create_actions cfgP now (mid tp) AB AS c tp)).filter
        (is_sell_for p)).length =
      if (filter_executors AS (fun x => x.trading_pair == p)).length = 0
      then ps.count p else 0 := by
  induction ps with
  | nil => simp
  | cons tp rest ih =>
      rw [List.flatMap_cons, List.filter_append, List.length_append, ih,
        pair_create_filter_sell_len]
      by_cases hp : tp = p
      · subst hp
        by_cases hs : (filter_executors AS (fun x => x.trading_pair == tp)).length = 0
        · simp [hs, List.count_cons]
          omega
        · simp [hs, List.count_cons]
      · by_cases hs : (filter_executors AS (fun x => x.trading_pair == p)).length = 0
        · simp [hp, hs, List.count_cons, Ne.symm hp]
        · simp [hp, hs, List.count_cons]

/-- C9: the creation-proposal phase emits, per side, one `Create` action for
*each listing* `(connector, pair)` of a trading pair with no active
position executor of that side — `count p` of all the listed pairs, not
"exactly one per pair" — and no action for that side once an active
executor of that side exists for the pair.  Every emitted action's entry
price is `mid * (1 - spread)` for a buy and `mid * (1 + spread)` for a
sell, with `amount = order_amount_quote / entry_price`. -/
theorem pmm_create_per_pair (cfgP : PMMParams) (now : ℚ)
    (connectors : List (String × List String)) (mid : String → String → ℚ)
    (all_executors : List ExecutorInfo) (p : String) :
    (((create_actions_proposal cfgP now connectors mid all_executors).filter
        (is_buy_for p)).length =
      if (filter_executors (active_side_position_executors all_executors .buy)
            (fun x => x.trading_pair == p)).length = 0
      then (connectors.flatMap Prod.snd).count p else 0) ∧
    (((create_actions_proposal cfgP now connectors mid all_executors).filter
        (is_sell_for p)).length =
      if (filter_executors (active_side_position_executors all_executors .sell)
            (fun x => x.trading_pair == p)).length = 0
      then (connectors.flatMap Prod.snd).count p else 0) ∧
    (∀ a ∈ create_actions_proposal cfgP now connectors mid all_executors,
      ∃ cn : String × List String, cn ∈ connectors ∧
        a.executor_config.trading_pair ∈ cn.2 ∧
        a.executor_config.exchange = cn.1 ∧
        a.executor_config.timestamp = now ∧
        a.executor_config.leverage = cfgP.leverage ∧
        (a.executor_config.side = .buy →
          a.executor_config.entry_price =
            mid cn.1 a.executor_config.trading_pair * (1 - cfgP.spread) ∧
          a.executor_config.amount =
            cfgP.order_amount_quote / a.executor_config.entry_price) ∧
        (a.executor_config.side = .sell →
          a.executor_config.entry_price =
            mid cn.1 a.executor_config.trading_pair * (1 + cfgP.spread) ∧
          a.executor_config.amount =
            cfgP.order_amount_quote / a.executor_config.entry_price)) := by
  refine ⟨?_, ?_, ?_⟩
  · induction connectors with
    | nil => simp [create_actions_proposal]
    | cons cn rest ih =>
        rw [create_actions_proposal, List.flatMap_cons, List.filter_append,
          List.length_append]
        have hrest : (rest.flatMap (fun cn =>
            cn.2.flatMap (fun trading_pair =>
              pair_create_actions cfgP now (mid cn.1 trading_pair)
                (active_side_position_executors all_executors .buy)
                (active_side_position_executors all_executors .sell)
                cn.1 trading_pair))) =
            create_actions_proposal cfgP now rest mid all_executors := rfl
        rw [hrest, ih, flatMap_pairs_filter_buy_len, List.flatMap_cons, List.count_append]
        by_cases hb : (filter_executors (active_side_position_executors all_executors .buy)
            (fun x => x.trading_pair == p)).length = 0
        · simp [hb]
        · simp [hb]
  · induction connectors with
    | nil => simp [create_actions_proposal]
    | cons cn rest ih =>
        rw [create_actions_proposal, List.flatMap_cons, List.filter_append,
          List.length_append]
        have hrest : (rest.flatMap (fun cn =>
            cn.2.flatMap (fun trading_pair =>
              pair_create_actions cfgP now (mid cn.1 trading_pair)
                (active_side_position_executors all_executors .buy)
                (active_side_position_executors all_executors .sell)
                cn.1 trading_pair))) =
            create_actions_proposal cfgP now rest mid all_executors := rfl
        rw [hrest, ih, flatMap_pairs_filter_sell_len, List.flatMap_cons, List.count_append]
        by_cases hs : (filter_executors (active_side_position_executors all_executors .sell)
            (fun x => x.trading_pair == p)).length = 0
        · simp [hs]
        · simp [hs]
  · intro a ha
    rw [create_actions_proposal] at ha
    rcases List.mem_flatMap.mp ha with ⟨cn, hcn, ha2⟩
    rcases List.mem_flatMap.mp ha2 with ⟨tp, htp, ha3⟩
    rw [pair_create_actions] at ha3
    rcases List.mem_append.mp ha3 with h4 | h4
    · split at h4
      · rcases List.mem_singleton.mp h4 with rfl
        refine ⟨cn, hcn, htp, rfl, rfl, rfl, fun _ => ⟨rfl, rfl⟩, ?_⟩
        intro hs
        exact nomatch hs
      · exact absurd h4 (List.not_mem_nil a)
    · split at h4
      · rcases List.mem_singleton.mp h4 with rfl
        refine ⟨cn, hcn, htp, rfl, rfl, rfl, ?_, fun _ => ⟨rfl, rfl⟩⟩
        intro hb
        exact nomatch hb
      · exact absurd h4 (List.not_mem_nil a)

end PMM

namespace PMM

/-- C9 counterexample: two connectors both listing trading pair `"X"`, no
active executors — the tick emits *two* buy `Create` actions for the pair
(one per connector), not exactly one. -/
theorem pmm_create_duplicate_pair_cex :
    ((create_actions_proposal ⟨30, 3/1000, 20⟩ 0 [("a", ["X"]), ("b", ["X"])]
        (fun _ _ => 100) []).filter (is_buy_for "X")).length = 2 ∧ (2 : ℕ) ≠ 1 := by
  constructor
  · decide
  · decide

theorem pmm_create_per_pair_witness :
    (((create_actions_proposal ⟨30, 3/1000, 20⟩ 0 [("a", ["X"])] (fun _ _ => 100) []).filter
        (is_buy_for "X")).length =
      if (filter_executors (active_side_position_executors [] .buy)
            (fun x => x.trading_pair == "X")).length = 0
      then (([("a", ["X"])] : List (String × List String)).flatMap Prod.snd).count "X"
      else 0) ∧
    (∃ cn : String × List String, cn ∈ ([("a", ["X"])] : List (String × List String)) ∧
      (⟨⟨0, "X", "a", .buy, 30 / (100 * (1 - 3/1000)), 100 * (1 - 3/1000), 20⟩⟩ :
        CreateExecutorAction).executor_config.trading_pair ∈ cn.2 ∧
      (⟨⟨0, "X", "a", .buy, 30 / (100 * (1 - 3/1000)), 100 * (1 - 3/1000), 20⟩⟩ :
        CreateExecutorAction).executor_config.exchange = cn.1 ∧
      (⟨⟨0, "X", "a", .buy, 30 / (100 * (1 - 3/1000)), 100 * (1 - 3/1000), 20⟩⟩ :
        CreateExecutorAction).executor_config.timestamp = 0 ∧
      (⟨⟨0, "X", "a", .buy, 30 / (100 * (1 - 3/1000)), 100 * (1 - 3/1000), 20⟩⟩ :
        CreateExecutorAction).executor_config.leverage = (⟨30, 3/1000, 20⟩ : PMMParams).leverage ∧
      ((⟨⟨0, "X", "a", .buy, 30 / (100 * (1 - 3/1000)), 100 * (1 - 3/1000), 20⟩⟩ :
          CreateExecutorAction).executor_config.side = .buy →
        (⟨⟨0, "X", "a", .buy, 30 / (100 * (1 - 3/1000)), 100 * (1 - 3/1000), 20⟩⟩ :
          CreateExecutorAction).executor_config.entry_price =
          (fun (_ _ : String) => (100 : ℚ)) cn.1
            (⟨⟨0, "X", "a", .buy, 30 / (100 * (1 - 3/1000)), 100 * (1 - 3/1000), 20⟩⟩ :
              CreateExecutorAction).executor_config.trading_pair *
            (1 - (⟨30, 3/1000, 20⟩ : PMMParams).spread) ∧
        (⟨⟨0, "X", "a", .buy, 30 / (100 * (1 - 3/1000)), 100 * (1 - 3/1000), 20⟩⟩ :
          CreateExecutorAction).executor_config.amount =
          (⟨30, 3/1000, 20⟩ : PMMParams).order_amount_quote /
            (⟨⟨0, "X", "a", .buy, 30 / (100 * (1 - 3/1000)), 100 * (1 - 3/1000), 20⟩⟩ :
              CreateExecutorAction).executor_config.entry_price) ∧
      ((⟨⟨0, "X", "a", .buy, 30 / (100 * (1 - 3/1000)), 100 * (1 - 3/1000), 20⟩⟩ :
          CreateExecutorAction).executor_config.side = .sell →
        (⟨⟨0, "X", "a", .buy, 30 / (100 * (1 - 3/1000)), 100 * (1 - 3/1000), 20⟩⟩ :
          CreateExecutorAction).executor_config.entry_price =
          (fun (_ _ : String) => (100 : ℚ)) cn.1
            (⟨⟨0, "X", "a", .buy, 30 / (100 * (1 - 3/1000)), 100 * (1 - 3/1000), 20⟩⟩ :
              CreateExecutorAction).executor_config.trading_pair *
            (1 + (⟨30, 3/1000, 20⟩ : PMMParams).spread) ∧
        (⟨⟨0, "X", "a", .buy, 30 / (100 * (1 - 3/1000)), 100 * (1 - 3/1000), 20⟩⟩ :
          CreateExecutorAction).executor_config.amount =
          (⟨30, 3/1000, 20⟩ : PMMParams).order_amount_quote /
            (⟨⟨0, "X", "a", .buy, 30 / (100 * (1 - 3/1000)), 100 * (1 - 3/1000), 20⟩⟩ :
              CreateExecutorAction).executor_config.entry_price)) := by
  have H := pmm_create_per_pair ⟨30, 3/1000, 20⟩ 0 [("a", ["X"])] (fun _ _ => 100) [] "X"
  refine ⟨H.1, ?_⟩
  have ha : (⟨⟨0, "X", "a", .buy, 30 / (100 * (1 - 3/1000)), 100 * (1 - 3/1000), 20⟩⟩ :
      CreateExecutorAction) ∈
      create_actions_proposal ⟨30, 3/1000, 20⟩ 0 [("a", ["X"])] (fun _ _ => 100) [] := by
    show _ ∈ ([⟨⟨0, "X", "a", .buy, 30 / (100 * (1 - 3/1000)), 100 * (1 - 3/1000), 20⟩⟩,
      ⟨⟨0, "X", "a", .sell, 30 / (100 * (1 + 3/1000)), 100 * (1 + 3/1000), 20⟩⟩] :
      List CreateExecutorAction)
    exact List.mem_cons_self _ _
  exact H.2.2 _ ha

end PMM

namespace PeakUtils

/-- Arithmetic mean of a list (`numpy` `.mean()`), as used on line 19 of
`peak_analysis_utils.py`. -/
def mean (xs : List ℚ) : ℚ := xs.sum / xs.length

/-- `numpy` mean of a possibly empty selection: the mean of an empty slice
is NaN, modelled as `none`. -/
def meanOpt (xs : List ℚ) : Option ℚ :=
  if xs.length = 0 then none else some (mean xs)

/-- The prices of the peaks whose (0-based) indices lie in the cluster. -/
def valsAt (peaks : List ℚ) (c : List ℕ) : List ℚ :=
  c.map (fun i => peaks.getD i 0)

/-- Ward's minimum-variance merge cost between two clusters of 1-d points:
`|A||B|/(|A|+|B|) * (mean A - mean B)²` (scipy's linkage heights are a
monotone transform of this, so the merge order is the same). -/
def wardDist (peaks : List ℚ) (a b : List ℕ) : ℚ :=
  let va := valsAt peaks a
  let vb := valsAt peaks b
  let d := mean va - mean vb
  ((va.length : ℚ) * (vb.length : ℚ) / ((va.length : ℚ) + (vb.length : ℚ))) * (d * d)

/-- All index pairs `(i, j)` with `i < j < n`. -/
def allPairs (n : ℕ) : List (ℕ × ℕ) :=
  (List.range n).flatMap (fun i =>
    (List.range n).filterMap (fun j => if i < j then some (i, j) else none))

/-- The pair of cluster positions with minimal Ward merge cost. -/
def bestPair (peaks : List ℚ) (cs : List (List ℕ)) : Option (ℕ × ℕ) :=
  (allPairs cs.length).argmin
    (fun pr => wardDist peaks (cs.getD pr.1 []) (cs.getD pr.2 []))

/-- One agglomerative step: merge the cheapest pair `(i, j)`, leaving the
merged cluster at position `i` and deleting position `j`. -/
def mergeOnce (peaks : List ℚ) (cs : List (List ℕ)) : List (List ℕ) :=
  match bestPair peaks cs with
  | none => cs
  | some (i, j) =>
      ((List.range cs.length).filter (fun t => t != j)).map
        (fun t => if t = i then cs.getD i [] ++ cs.getD j [] else cs.getD t [])

/-- Merge down to at most `k` clusters (fuel-bounded; `fuel = n` always
suffices). -/
def mergeToK (peaks : List ℚ) : ℕ → ℕ → List (List ℕ) → List (List ℕ)
  | 0, _, cs => cs
  | fuel + 1, k, cs =>
      if cs.length ≤ k then cs else mergeToK peaks fuel k (mergeOnce peaks cs)

/-- The initial partition: one singleton cluster per observation. -/
def initClusters (n : ℕ) : List (List ℕ) := (List.range n).map (fun i => [i])

/-- The flat clustering `fcluster(linkage(peaks, 'ward'), k, 'maxclust')`
produces after cutting the Ward dendrogram: `min(n, k)` clusters.  (scipy's
`linkage` requires at least two observations, so the model is only used
with `2 ≤ peaks.length`.) -/
def finalClusters (peaks : List ℚ) (k : ℕ) : List (List ℕ) :=
  mergeToK peaks peaks.length k (initClusters peaks.length)

/-- The flat cluster labels, `1`-based as `fcluster` returns them: the
label of observation `i` is one plus the position of the cluster containing
`i`. -/
def fclusterWard (peaks : List ℚ) (k : ℕ) : List ℕ :=
  (List.range peaks.length).map
    (fun i => 1 + (finalClusters peaks k).findIdx (fun c => decide (i ∈ c)))

/-- The boolean-mask selection `peaks[labels == j]` of line 19. -/
def clusterMembers (peaks : List ℚ) (labels : List ℕ) (j : ℕ) : List ℚ :=
  (peaks.zip labels).filterMap (fun pl => if pl.2 = j then some pl.1 else none)

/-- `hierarchical_clustering` (source lines 16–20): Ward-linkage flat
clustering into `num_clusters` clusters, then
`[peaks[labels == k].mean() for k in range(1, num_clusters + 1)]` —
one entry per requested cluster, `none` (NaN) for an empty cluster. -/
def hierarchical_clustering (peaks : List ℚ) (num_clusters : ℕ) :
    List (Option ℚ) × List ℕ :=
  let labels := fclusterWard peaks num_clusters
  ((List.range num_clusters).map (fun i => meanOpt (clusterMembers peaks labels (i + 1))),
   labels)

/-- `MarroqController.find_and_cluster_peaks` (marroq.py lines 115–125)
from the clustering step on: the peak index sets delivered by the external
`scipy.signal.find_peaks` call are inputs; the high-peak prices
`candles['high'].iloc[high_peaks].values` and low-peak prices are clustered
separately and both centroid lists are returned. -/
def find_and_cluster_peaks (highs lows : List ℚ) (high_peaks low_peaks : List ℕ)
    (num_clusters : ℕ) : List (Option ℚ) × List (Option ℚ) :=
  let high_peak_prices := high_peaks.map (fun i => highs.getD i 0)
  let low_peak_prices := low_peaks.map (fun i => lows.getD i 0)
  ((hierarchical_clustering high_peak_prices num_clusters).1,
   (hierarchical_clustering low_peak_prices num_clusters).1)

/-- Invariant of the cluster partition maintained by the merge loop:
clusters are nonempty, hold indices `< n`, cover every index `< n`, and
are pairwise disjoint. -/
def GoodClusters (n : ℕ) (cs : List (List ℕ)) : Prop :=
  (∀ c ∈ cs, c ≠ []) ∧
  (∀ c ∈ cs, ∀ i ∈ c, i < n) ∧
  (∀ i, i < n → ∃ c ∈ cs, i ∈ c) ∧
  cs.Pairwise (fun a b => ∀ i ∈ a, i ∉ b)

end PeakUtils

namespace PeakUtils

theorem mem_allPairs {n : ℕ} {pr : ℕ × ℕ} : pr ∈ allPairs n ↔ pr.1 < pr.2 ∧ pr.2 < n := by
  unfold allPairs
  constructor
  · intro h
    rcases List.mem_flatMap.mp h with ⟨i, hi, hj⟩
    rcases List.mem_filterMap.mp hj with ⟨j, hjr, hcase⟩
    by_cases hij : i < j
    · rw [if_pos hij] at hcase
      cases hcase
      exact ⟨hij, List.mem_range.mp hjr⟩
    · rw [if_neg hij] at hcase
      cases hcase
  · intro h
    refine List.mem_flatMap.mpr ⟨pr.1, List.mem_range.mpr (lt_trans h.1 h.2), ?_⟩
    refine List.mem_filterMap.mpr ⟨pr.2, List.mem_range.mpr h.2, ?_⟩
    rw [if_pos h.1]

theorem bestPair_mem {peaks : List ℚ} {cs : List (List ℕ)} {i j : ℕ}
    (h : bestPair peaks cs = some (i, j)) : i < j ∧ j < cs.length :=
  mem_allPairs.mp (List.argmin_mem (show (i, j) ∈ _ from h))

theorem bestPair_isSome {peaks : List ℚ} {cs : List (List ℕ)} (h : 2 ≤ cs.length) :
    ∃ pr, bestPair peaks cs = some pr := by
  cases hbp : bestPair peaks cs with
  | some pr => exact ⟨pr, rfl⟩
  | none =>
      exfalso
      have hnil : allPairs cs.length = [] := List.argmin_eq_none.mp hbp
      have h01 : ((0, 1) : ℕ × ℕ) ∈ allPairs cs.length :=
        mem_allPairs.mpr ⟨by omega, by omega⟩
      rw [hnil] at h01
      exact absurd h01 (List.not_mem_nil _)

theorem mem_mergeOnce {peaks : List ℚ} {cs : List (List ℕ)} {i j : ℕ} {c' : List ℕ}
    (hbp : bestPair peaks cs = some (i, j)) :
    c' ∈ mergeOnce peaks cs ↔ ∃ t, t < cs.length ∧ t ≠ j ∧
      c' = (if t = i then cs.getD i [] ++ cs.getD j [] else cs.getD t []) := by
  rw [mergeOnce, hbp]
  simp only [List.mem_map, List.mem_filter, List.mem_range, bne_iff_ne]
  constructor
  · rintro ⟨t, ⟨ht, htj⟩, rfl⟩
    exact ⟨t, ht, htj, rfl⟩
  · rintro ⟨t, ht, htj, rfl⟩
    exact ⟨t, ⟨ht, htj⟩, rfl⟩

theorem mergeOnce_length {peaks : List ℚ} {cs : List (List ℕ)} {i j : ℕ}
    (hbp : bestPair peaks cs = some (i, j)) :
    (mergeOnce peaks cs).length = cs.length - 1 := by
  obtain ⟨hij, hj⟩ := bestPair_mem hbp
  rw [mergeOnce, hbp]
  rw [List.length_map]
  rw [← (List.nodup_range cs.length).erase_eq_filter j,
    List.length_erase_of_mem (List.mem_range.mpr hj), List.length_range]

end PeakUtils

namespace PeakUtils

/-- Symmetric indexed form of pairwise disjointness. -/
theorem goodClusters_disj {n : ℕ} {cs : List (List ℕ)} (hg : GoodClusters n cs) :
    ∀ a b, a < cs.length → b < cs.length → a ≠ b →
      ∀ x ∈ cs.getD a [], x ∉ cs.getD b [] := by
  intro a b ha hb hab x hxa hxb
  rw [List.getD_eq_getElem _ _ ha] at hxa
  rw [List.getD_eq_getElem _ _ hb] at hxb
  rcases Nat.lt_or_ge a b with h | h
  · exact (List.pairwise_iff_getElem.mp hg.2.2.2) a b ha hb h x hxa hxb
  · have hba : b < a := by omega
    exact (List.pairwise_iff_getElem.mp hg.2.2.2) b a hb ha hba x hxb hxa

theorem goodClusters_mergeOnce {n : ℕ} (peaks : List ℚ) {cs : List (List ℕ)}
    (hg : GoodClusters n cs) : GoodClusters n (mergeOnce peaks cs) := by
  cases hbp : bestPair peaks cs with
  | none =>
      rw [mergeOnce, hbp]
      exact hg
  | some pr =>
      obtain ⟨i, j⟩ := pr
      obtain ⟨hij, hjlen⟩ := bestPair_mem hbp
      have hilen : i < cs.length := lt_trans hij hjlen
      obtain ⟨hne, hbound, hcover, hdisj⟩ := hg
      have hgetmem : ∀ t, t < cs.length → cs.getD t [] ∈ cs := by
        intro t ht
        rw [List.getD_eq_getElem _ _ ht]
        exact List.getElem_mem _
      have hdisj' := @goodClusters_disj n cs ⟨hne, hbound, hcover, hdisj⟩
      refine ⟨?_, ?_, ?_, ?_⟩
      · intro c' hc'
        rcases (mem_mergeOnce hbp).mp hc' with ⟨t, ht, htj, rfl⟩
        by_cases hti : t = i
        · rw [if_pos hti]
          intro h0
          exact hne _ (hgetmem i hilen) (List.append_eq_nil.mp h0).1
        · rw [if_neg hti]
          exact hne _ (hgetmem t ht)
      · intro c' hc'
        rcases (mem_mergeOnce hbp).mp hc' with ⟨t, ht, htj, rfl⟩
        by_cases hti : t = i
        · rw [if_pos hti]
          intro x hx
          rcases List.mem_append.mp hx with h | h
          · exact hbound _ (hgetmem i hilen) x h
          · exact hbound _ (hgetmem j hjlen) x h
        · rw [if_neg hti]
          exact hbound _ (hgetmem t ht)
      · intro i0 hi0
        obtain ⟨c, hc, hic⟩ := hcover i0 hi0
        obtain ⟨t0, ht0, hct0⟩ := List.mem_iff_getElem.mp hc
        have hgt0 : cs.getD t0 [] = c := by
          rw [List.getD_eq_getElem _ _ ht0, hct0]
        by_cases ht0j : t0 = j
        · refine ⟨cs.getD i [] ++ cs.getD j [], (mem_mergeOnce hbp).mpr
            ⟨i, hilen, Nat.ne_of_lt hij, by rw [if_pos rfl]⟩, ?_⟩
          refine List.mem_append.mpr (Or.inr ?_)
          rw [← ht0j, hgt0]
          exact hic
        · by_cases ht0i : t0 = i
          · refine ⟨cs.getD i [] ++ cs.getD j [], (mem_mergeOnce hbp).mpr
              ⟨i, hilen, Nat.ne_of_lt hij, by rw [if_pos rfl]⟩, ?_⟩
            refine List.mem_append.mpr (Or.inl ?_)
            rw [← ht0i, hgt0]
            exact hic
          · refine ⟨cs.getD t0 [], (mem_mergeOnce hbp).mpr
              ⟨t0, ht0, ht0j, by rw [if_neg ht0i]⟩, ?_⟩
            rw [hgt0]
            exact hic
      · rw [mergeOnce, hbp, List.pairwise_map]
        have hbase : ((List.range cs.length).filter (fun t => t != j)).Pairwise (· < ·) :=
          (List.pairwise_lt_range cs.length).filter _
        refine List.Pairwise.imp_of_mem ?_ hbase
        intro t t' hmt hmt' hlt x hx hx'
        have ht : t < cs.length := List.mem_range.mp (List.mem_filter.mp hmt).1
        have ht' : t' < cs.length := List.mem_range.mp (List.mem_filter.mp hmt').1
        have htj : t ≠ j := by
          have := (List.mem_filter.mp hmt).2
          simpa using this
        have ht'j : t' ≠ j := by
          have := (List.mem_filter.mp hmt').2
          simpa using this
        have htt' : t ≠ t' := Nat.ne_of_lt hlt
        by_cases hti : t = i
        · subst hti
          rw [if_pos rfl] at hx
          rw [if_neg (Ne.symm htt')] at hx'
          rcases List.mem_append.mp hx with h | h
          · exact hdisj' t t' ht ht' htt' x h hx'
          · exact hdisj' j t' hjlen ht' (Ne.symm ht'j) x h hx'
        · rw [if_neg hti] at hx
          by_cases ht'i : t' = i
          · subst ht'i
            rw [if_pos rfl] at hx'
            rcases List.mem_append.mp hx' with h | h
            · exact hdisj' t t' ht ht' htt' x hx h
            · exact hdisj' t j ht hjlen htj x hx h
          · rw [if_neg ht'i] at hx'
            exact hdisj' t t' ht ht' htt' x hx hx'

end PeakUtils

namespace PeakUtils

theorem goodClusters_mergeToK {n : ℕ} (peaks : List ℚ) :
    ∀ (fuel k : ℕ) (cs : List (List ℕ)), GoodClusters n cs →
      GoodClusters n (mergeToK peaks fuel k cs) := by
  intro fuel
  induction fuel with
  | zero => intro k cs hg; exact hg
  | succ fuel ih =>
      intro k cs hg
      rw [mergeToK]
      split
      · exact hg
      · exact ih k (mergeOnce peaks cs) (goodClusters_mergeOnce peaks hg)

theorem mergeToK_of_le (peaks : List ℚ) (fuel k : ℕ) (cs : List (List ℕ))
    (h : cs.length ≤ k) : mergeToK peaks fuel k cs = cs := by
  cases fuel with
  | zero => rfl
  | succ fuel => rw [mergeToK, if_pos h]

theorem mergeToK_length (peaks : List ℚ) :
    ∀ (fuel k : ℕ) (cs : List (List ℕ)), 1 ≤ k → cs.length ≤ k + fuel →
      (mergeToK peaks fuel k cs).length = min cs.length k := by
  intro fuel
  induction fuel with
  | zero =>
      intro k cs hk hle
      rw [mergeToK]
      omega
  | succ fuel ih =>
      intro k cs hk hle
      rw [mergeToK]
      split
      · rename_i h
        omega
      · rename_i h
        push_neg at h
        have h2 : 2 ≤ cs.length := by omega
        obtain ⟨pr, hbp⟩ := @bestPair_isSome peaks cs h2
        obtain ⟨i, j⟩ := pr
        have hlen := mergeOnce_length hbp
        rw [ih k (mergeOnce peaks cs) hk (by omega), hlen]
        omega

theorem goodClusters_init (n : ℕ) : GoodClusters n (initClusters n) := by
  refine ⟨?_, ?_, ?_, ?_⟩
  · intro c hc
    rcases List.mem_map.mp hc with ⟨i, hi, rfl⟩
    simp
  · intro c hc
    rcases List.mem_map.mp hc with ⟨i, hi, rfl⟩
    intro x hx
    rcases List.mem_singleton.mp hx with rfl
    exact List.mem_range.mp hi
  · intro i hi
    exact ⟨[i], List.mem_map.mpr ⟨i, List.mem_range.mpr hi, rfl⟩, List.mem_singleton.mpr rfl⟩
  · rw [initClusters, List.pairwise_map]
    refine (List.pairwise_lt_range n).imp ?_
    intro a b hab x hx hx'
    rcases List.mem_singleton.mp hx with rfl
    rcases List.mem_singleton.mp hx' with h
    omega

theorem initClusters_length (n : ℕ) : (initClusters n).length = n := by
  simp [initClusters]

theorem goodClusters_final (peaks : List ℚ) (k : ℕ) :
    GoodClusters peaks.length (finalClusters peaks k) :=
  goodClusters_mergeToK peaks peaks.length k (initClusters peaks.length)
    (goodClusters_init peaks.length)

theorem finalClusters_length (peaks : List ℚ) (k : ℕ) (hk : 1 ≤ k) :
    (finalClusters peaks k).length = min peaks.length k := by
  rw [finalClusters, mergeToK_length peaks peaks.length k (initClusters peaks.length) hk
    (by rw [initClusters_length]; omega), initClusters_length]

theorem fclusterWard_length (peaks : List ℚ) (k : ℕ) :
    (fclusterWard peaks k).length = peaks.length := by
  simp [fclusterWard]

theorem findIdx_eq_of_mem {n : ℕ} {cs : List (List ℕ)} (hg : GoodClusters n cs)
    {i0 t : ℕ} (ht : t < cs.length) (hi : i0 ∈ cs.getD t []) :
    cs.findIdx (fun c => decide (i0 ∈ c)) = t := by
  rw [List.getD_eq_getElem _ _ ht] at hi
  refine (List.findIdx_eq ht).mpr ⟨by simpa using hi, ?_⟩
  intro j hj
  simp only [decide_eq_false_iff_not]
  intro hmem
  exact (List.pairwise_iff_getElem.mp hg.2.2.2) j t (lt_trans hj ht) ht hj i0 hmem hi

theorem findIdx_lt_of_cover {n : ℕ} {cs : List (List ℕ)} (hg : GoodClusters n cs)
    {i : ℕ} (hi : i < n) : cs.findIdx (fun c => decide (i ∈ c)) < cs.length := by
  obtain ⟨c, hc, hic⟩ := hg.2.2.1 i hi
  exact List.findIdx_lt_length_of_exists ⟨c, hc, by simpa using hic⟩

end PeakUtils

namespace PeakUtils

theorem clusterMembers_subset {peaks : List ℚ} {labels : List ℕ} {j : ℕ} :
    ∀ x ∈ clusterMembers peaks labels j, x ∈ peaks := by
  intro x hx
  rcases List.mem_filterMap.mp hx with ⟨pl, hpl, hcase⟩
  obtain ⟨a, b⟩ := pl
  by_cases h : b = j
  · rw [if_pos h] at hcase
    cases hcase
    exact (List.of_mem_zip hpl).1
  · rw [if_neg h] at hcase
    cases hcase

theorem clusterMembers_eq_nil {peaks : List ℚ} {labels : List ℕ} {j : ℕ}
    (h : ∀ l ∈ labels, l < j) : clusterMembers peaks labels j = [] := by
  rw [clusterMembers, List.filterMap_eq_nil_iff]
  intro pl hpl
  obtain ⟨a, b⟩ := pl
  have hb : b ∈ labels := (List.of_mem_zip hpl).2
  rw [if_neg]
  exact Nat.ne_of_lt (h b hb)

theorem clusterMembers_ne_nil {peaks : List ℚ} {labels : List ℕ} {j : ℕ}
    (hlen : labels.length = peaks.length) {i0 : ℕ} (hi0 : i0 < peaks.length)
    (hl : labels.getD i0 0 = j) : clusterMembers peaks labels j ≠ [] := by
  intro hnil
  have hzlen : i0 < (peaks.zip labels).length := by
    rw [List.length_zip]
    omega
  have hmem : (peaks.getD i0 0, j) ∈ peaks.zip labels := by
    have hi0l : i0 < labels.length := by omega
    have hgz : (peaks.zip labels)[i0] = (peaks[i0], labels[i0]) := List.getElem_zip
    have h1 : peaks[i0] = peaks.getD i0 0 := (List.getD_eq_getElem peaks 0 hi0).symm
    have h2 : labels[i0] = j := by
      rw [← List.getD_eq_getElem labels 0 hi0l]
      exact hl
    rw [h1, h2] at hgz
    rw [← hgz]
    exact List.getElem_mem hzlen
  have : peaks.getD i0 0 ∈ clusterMembers peaks labels j :=
    List.mem_filterMap.mpr ⟨(peaks.getD i0 0, j), hmem, by rw [if_pos rfl]⟩
  rw [hnil] at this
  exact absurd this (List.not_mem_nil _)

theorem mean_bounds {xs : List ℚ} (hne : xs ≠ []) {a b : ℚ}
    (ha : ∀ x ∈ xs, a ≤ x) (hb : ∀ x ∈ xs, x ≤ b) :
    a ≤ mean xs ∧ mean xs ≤ b := by
  have hlpos : 0 < (xs.length : ℚ) := by
    have := List.length_pos.mpr hne
    exact_mod_cast this
  have h1 : (xs.length : ℚ) * a ≤ xs.sum := by
    have := List.card_nsmul_le_sum xs a ha
    simpa [nsmul_eq_mul] using this
  have h2 : xs.sum ≤ (xs.length : ℚ) * b := by
    have := List.sum_le_card_nsmul xs b hb
    simpa [nsmul_eq_mul] using this
  constructor
  · rw [mean, le_div_iff₀ hlpos]
    linarith
  · rw [mean, div_le_iff₀ hlpos]
    linarith

/-- Core fact behind C5: with `1 ≤ k ≤ n` observations inside `[a, b]`, the
clustering returns exactly `k` centroid entries, all defined and inside
`[a, b]`. -/
theorem hierarchical_clustering_full (peaks : List ℚ) (k : ℕ) (hk : 1 ≤ k)
    (hn : k ≤ peaks.length) {a b : ℚ} (hab : ∀ x ∈ peaks, a ≤ x ∧ x ≤ b) :
    (hierarchical_clustering peaks k).1.length = k ∧
    ∀ o ∈ (hierarchical_clustering peaks k).1, ∃ v, o = some v ∧ a ≤ v ∧ v ≤ b := by
  constructor
  · simp [hierarchical_clustering]
  · intro o ho
    simp only [hierarchical_clustering] at ho
    rcases List.mem_map.mp ho with ⟨t, htr, rfl⟩
    have ht : t < k := List.mem_range.mp htr
    have hg := goodClusters_final peaks k
    have hflen : (finalClusters peaks k).length = k := by
      rw [finalClusters_length peaks k hk]
      omega
    have htlen : t < (finalClusters peaks k).length := by omega
    have hct : (finalClusters peaks k).getD t [] ∈ finalClusters peaks k := by
      rw [List.getD_eq_getElem _ _ htlen]
      exact List.getElem_mem _
    have hcne : (finalClusters peaks k).getD t [] ≠ [] := hg.1 _ hct
    obtain ⟨i0, hi0mem⟩ := List.exists_mem_of_ne_nil _ hcne
    have hi0 : i0 < peaks.length := hg.2.1 _ hct i0 hi0mem
    have hfind : (finalClusters peaks k).findIdx (fun c => decide (i0 ∈ c)) = t :=
      findIdx_eq_of_mem hg htlen hi0mem
    have hlab : (fclusterWard peaks k).getD i0 0 = t + 1 := by
      rw [fclusterWard]
      rw [List.getD_eq_getElem _ _ (by simpa using hi0)]
      simp only [List.getElem_map, List.getElem_range]
      rw [hfind]
      omega
    have hne := clusterMembers_ne_nil (fclusterWard_length peaks k) hi0 hlab
    have hsub : ∀ x ∈ clusterMembers peaks (fclusterWard peaks k) (t + 1),
        a ≤ x ∧ x ≤ b := fun x hx => hab x (clusterMembers_subset x hx)
    have hbounds := mean_bounds hne (fun x hx => (hsub x hx).1) (fun x hx => (hsub x hx).2)
    refine ⟨mean (clusterMembers peaks (fclusterWard peaks k) (t + 1)), ?_, hbounds.1,
      hbounds.2⟩
    rw [meanOpt, if_neg]
    intro h0
    exact hne (List.length_eq_zero.mp h0)

end PeakUtils

namespace PeakUtils

/-- C4: with fewer observations than requested clusters (and at least the
two observations scipy's `linkage` requires), the clustering degrades to
one point per cluster, but the empty clusters are *not* dropped: the
returned centroid list still has exactly `num_clusters` entries and
contains an undefined (NaN, modelled `none`) centroid for each empty
cluster. -/
theorem hierarchical_clustering_short (peaks : List ℚ) (k : ℕ)
    (h2 : 2 ≤ peaks.length) (hlt : peaks.length < k) :
    (hierarchical_clustering peaks k).1.length = k ∧
    none ∈ (hierarchical_clustering peaks k).1 := by
  constructor
  · simp [hierarchical_clustering]
  · have hfl : (finalClusters peaks k).length = peaks.length := by
      rw [finalClusters, mergeToK_of_le peaks peaks.length k (initClusters peaks.length)
        (by rw [initClusters_length]; omega), initClusters_length]
    have hlabels : ∀ l ∈ fclusterWard peaks k, l < k := by
      intro l hl
      rcases List.mem_map.mp hl with ⟨i, hir, rfl⟩
      have hi := List.mem_range.mp hir
      have hflt := findIdx_lt_of_cover (goodClusters_final peaks k) hi
      omega
    have hempty : clusterMembers peaks (fclusterWard peaks k) k = [] :=
      clusterMembers_eq_nil hlabels
    simp only [hierarchical_clustering]
    refine List.mem_map.mpr ⟨k - 1, List.mem_range.mpr (by omega), ?_⟩
    rw [show k - 1 + 1 = k by omega, hempty, meanOpt]
    simp

theorem hierarchical_clustering_short_witness :
    (hierarchical_clustering [10, 20] 3).1.length = 3 ∧
    none ∈ (hierarchical_clustering [10, 20] 3).1 :=
  hierarchical_clustering_short [10, 20] 3 (by norm_num) (by norm_num)

end PeakUtils

namespace PeakUtils

/-- C4 counterexample: two detected peaks, three requested clusters — the
returned centroid list is `[10, 20, NaN]`: it is *not* shorter than `k`,
and it contains the undefined centroid of the empty third cluster. -/
theorem hierarchical_clustering_nan_cex :
    (hierarchical_clustering [10, 20] 3).1 = [some 10, some 20, none] ∧
    ¬((hierarchical_clustering [10, 20] 3).1.length < 3) ∧
    none ∈ (hierarchical_clustering [10, 20] 3).1 := by
  have hlab : fclusterWard [10, 20] 3 = [1, 2] := by decide
  have h1 : (hierarchical_clustering [10, 20] 3).1 = [some 10, some 20, none] := by
    simp only [hierarchical_clustering]
    rw [hlab]
    norm_num [List.range_succ, clusterMembers, meanOpt, mean, List.zip, List.zipWith,
      List.filterMap]
  refine ⟨h1, by rw [h1]; norm_num, by rw [h1]; norm_num⟩

end PeakUtils

namespace PeakUtils

/-- C5: whenever peak detection delivers at least `k` high-peak indices and
at least `k` low-peak indices (with the at-least-two observations scipy's
`linkage` requires, all indices in range, and every bar satisfying
`low ≤ high`), `find_and_cluster_peaks` returns exactly `k` high clusters
and exactly `k` low clusters, and every centroid is defined and lies within
`[m, M]` for any lower bound `m` of the lows and upper bound `M` of the
highs — in particular within `[min(low), max(high)]`. -/
theorem find_and_cluster_peaks_full (highs lows : List ℚ) (hp lp : List ℕ) (k : ℕ)
    (hk : 1 ≤ k) (hkp : k ≤ hp.length) (hkl : k ≤ lp.length)
    (h2p : 2 ≤ hp.length) (h2l : 2 ≤ lp.length)
    (hpb : ∀ i ∈ hp, i < highs.length) (hlb : ∀ i ∈ lp, i < lows.length)
    (hlen : highs.length = lows.length)
    (hcross : ∀ i, i < lows.length → lows.getD i 0 ≤ highs.getD i 0)
    {m M : ℚ} (hm : ∀ x ∈ lows, m ≤ x) (hM : ∀ x ∈ highs, x ≤ M) :
    (find_and_cluster_peaks highs lows hp lp k).1.length = k ∧
    (find_and_cluster_peaks highs lows hp lp k).2.length = k ∧
    (∀ o ∈ (find_and_cluster_peaks highs lows hp lp k).1,
      ∃ v, o = some v ∧ m ≤ v ∧ v ≤ M) ∧
    (∀ o ∈ (find_and_cluster_peaks highs lows hp lp k).2,
      ∃ v, o = some v ∧ m ≤ v ∧ v ≤ M) := by
  have hhigh : ∀ x ∈ hp.map (fun i => highs.getD i 0), m ≤ x ∧ x ≤ M := by
    intro x hx
    rcases List.mem_map.mp hx with ⟨i, hi, rfl⟩
    have hib := hpb i hi
    have hil : i < lows.length := by omega
    constructor
    · calc m ≤ lows.getD i 0 := by
            rw [List.getD_eq_getElem _ _ hil]
            exact hm _ (List.getElem_mem hil)
        _ ≤ highs.getD i 0 := hcross i hil
    · rw [List.getD_eq_getElem _ _ hib]
      exact hM _ (List.getElem_mem hib)
  have hlow : ∀ x ∈ lp.map (fun i => lows.getD i 0), m ≤ x ∧ x ≤ M := by
    intro x hx
    rcases List.mem_map.mp hx with ⟨i, hi, rfl⟩
    have hil := hlb i hi
    have hib : i < highs.length := by omega
    constructor
    · rw [List.getD_eq_getElem _ _ hil]
      exact hm _ (List.getElem_mem hil)
    · calc lows.getD i 0 ≤ highs.getD i 0 := hcross i hil
        _ ≤ M := by
            rw [List.getD_eq_getElem _ _ hib]
            exact hM _ (List.getElem_mem hib)
  have hHfull := hierarchical_clustering_full (hp.map (fun i => highs.getD i 0)) k hk
    (by rw [List.length_map]; omega) hhigh
  have hLfull := hierarchical_clustering_full (lp.map (fun i => lows.getD i 0)) k hk
    (by rw [List.length_map]; omega) hlow
  exact ⟨hHfull.1, hLfull.1, hHfull.2, hLfull.2⟩

theorem find_and_cluster_peaks_full_witness :
    (find_and_cluster_peaks [10, 20] [5, 6] [0, 1] [0, 1] 2).1.length = 2 ∧
    (find_and_cluster_peaks [10, 20] [5, 6] [0, 1] [0, 1] 2).2.length = 2 ∧
    (∀ o ∈ (find_and_cluster_peaks [10, 20] [5, 6] [0, 1] [0, 1] 2).1,
      ∃ v, o = some v ∧ (5 : ℚ) ≤ v ∧ v ≤ 20) ∧
    (∀ o ∈ (find_and_cluster_peaks [10, 20] [5, 6] [0, 1] [0, 1] 2).2,
      ∃ v, o = some v ∧ (5 : ℚ) ≤ v ∧ v ≤ 20) := by
  refine find_and_cluster_peaks_full [10, 20] [5, 6] [0, 1] [0, 1] 2
    (by norm_num) (by norm_num) (by norm_num) (by norm_num) (by norm_num)
    ?_ ?_ (by norm_num) ?_ ?_ ?_
  · intro i hi
    fin_cases hi <;> norm_num
  · intro i hi
    fin_cases hi <;> norm_num
  · intro i hi
    norm_num at hi
    interval_cases i <;> norm_num
  · intro x hx
    fin_cases hx <;> norm_num
  · intro x hx
    fin_cases hx <;> norm_num

end PeakUtils
